import Mathlib

/-!
Verification of the download orchestration core of
`src/electron/ipc/events/downloads.js`: the session state machine set up by
`startDownload` (per-stream `progress` / `end` / `error` handlers, the
registered `cancel` action, the encoder hand-off) and `cancelDownload`.

Byte counts and `Date.now()` timestamps are integers, modelled as ℤ.  The
only non-integer quantity the code produces is the published `speed`, whose
single division is by the literal `4`; payloads carry that value exactly as
4·speed (an integer) and `speedValue` recovers the JS number in ℚ.

The throttled `update` channel is modelled as the sequence of payloads passed
to `update(...)`: per the spec the throttle forwards, per window, the most
recent of these payloads, so every published value is one of them.
-/

namespace Downloads

/-- Status strings appearing in `add-download` / `update-download` payloads. -/
inductive Status
  | progress
  | convert
  | finish
  | errored
  | cancelled
deriving DecidableEq, Repr

/-- One payload passed to the throttled `update` handler (the `props` patch of
an `update-download` message).  The five shapes the code produces:
`{progress, speed, size}` (line 102), `{progress, size, status: 'convert'}`
(line 118), `{status: 'finish', endTimestamp, destinationFile}` (line 140),
`{status: 'errored'}` (lines 149 and 166), `{status: 'cancelled'}` (line 175).
`speedTimes4` is four times the published speed (see `speedValue`). -/
inductive Msg
  | sample (progress speedTimes4 size : ℤ)
  | convertMsg (progress size : ℤ)
  | finishMsg (endTimestamp : ℤ) (destinationFile : String)
  | erroredMsg
  | cancelledMsg
deriving DecidableEq, Repr

/-- The JS `speed` value a `sample` payload publishes. -/
def speedValue (speedTimes4 : ℤ) : ℚ := (speedTimes4 : ℚ) / 4

/-- The per-stream mutable closure state of the loop body (lines 95-97), plus
whether `destroy` has been called on the stream and whether the reason passed
to it was the string `'cancelled'`. -/
structure StreamState where
  lastProgress : ℤ
  lastSize : ℤ
  lastTs : ℤ
  destroyed : Bool
  destroyCancelled : Bool
deriving DecidableEq, Repr

/-- Initial per-stream state: `lastProgressTimestamp = 0; lastProgress = 0;
lastSize = 0`, stream not destroyed. -/
def dfltStream : StreamState :=
  { lastProgress := 0, lastSize := 0, lastTs := 0,
    destroyed := false, destroyCancelled := false }

/-- A call into the external encoder backend:
`encoder[sources.length === 1 ? 'convert' : 'merge'](destinationDirectory,
destinationFile)` (line 139). -/
inductive EncoderCall
  | convertCall (src dst : String)
  | mergeCall (src dst : String)
deriving DecidableEq, Repr

def encSrc : EncoderCall → String
  | EncoderCall.convertCall s _ => s
  | EncoderCall.mergeCall s _ => s

def encDst : EncoderCall → String
  | EncoderCall.convertCall _ d => d
  | EncoderCall.mergeCall _ d => d

def isConvCall : EncoderCall → Bool
  | EncoderCall.convertCall _ _ => true
  | EncoderCall.mergeCall _ _ => false

/-- The character class of the regex `/[/\\?%*:|"<>]/g` used on the title
(line 125). -/
def forbiddenChars : List Char :=
  ['/', '\\', '?', '%', '*', ':', '|', '\"', '<', '>']

/-- Effect of `title.replace(/[/\\?%*:|"<>]/g, ' ')` on one character. -/
def replaceForbidden (c : Char) : Char :=
  if c ∈ forbiddenChars then ' ' else c

/-- `.replace(/ +/g, ' ')` (line 125): each maximal run of spaces collapses to
a single space.  Implemented by dropping every space that is immediately
followed by another space, which leaves exactly one space per maximal run. -/
def collapseRuns : List Char → List Char
  | [] => []
  | [c] => [c]
  | c :: d :: rest =>
    if c = ' ' ∧ d = ' ' then collapseRuns (d :: rest)
    else c :: collapseRuns (d :: rest)

/-- `const filteredTitle = video.title.replace(/[/\\?%*:|"<>]/g, ' ')
.replace(/ +/g, ' ')` (line 125). -/
def filteredTitle (title : String) : String :=
  String.mk (collapseRuns (title.toList.map replaceForbidden))

/-- The spec's sanitization rule, implemented independently of the code model:
after replacing each forbidden character by a space, keep a space only when
the previously kept character was not a space. -/
def collapseAux : Bool → List Char → List Char
  | _, [] => []
  | prevSpace, c :: rest =>
    if c = ' ' then
      if prevSpace then collapseAux true rest
      else ' ' :: collapseAux true rest
    else c :: collapseAux false rest

/-- Sanitization as the spec words it (each forbidden character to one space,
then every run of consecutive spaces collapsed to one). -/
def sanitizeSpec (title : String) : String :=
  String.mk (collapseAux false (title.toList.map replaceForbidden))

/-- `path.join` / `path.resolve` modelled as separator concatenation. -/
def pathJoin (a b : String) : String := a ++ "/" ++ b

/-- The inputs fixed at `startDownload` time: the video metadata, the chosen
container format, the settings, the optional playlist, and the temporary file
path generated for each source stream
(`path.join(temporaryDirectory, createUID() + '.' + container)`, line 82). -/
structure Config where
  title : String
  authorName : String
  format : String
  downloadDir : String
  createChannelDirectory : Bool
  playlistTitle : Option String
  tempPaths : List String
deriving DecidableEq, Repr

/-- The download directory after the optional author-named and playlist-named
nesting (lines 128-135). -/
def destDir (cfg : Config) : String :=
  let d1 := if cfg.createChannelDirectory
    then pathJoin cfg.downloadDir cfg.authorName
    else cfg.downloadDir
  match cfg.playlistTitle with
  | some t => pathJoin d1 t
  | none => d1

/-- `path.join(downloadDirectory, filteredTitle + '.' + format)` (line 138). -/
def destFile (cfg : Config) : String :=
  pathJoin (destDir cfg) (filteredTitle cfg.title ++ "." ++ cfg.format)

/-- The session state closed over by the handlers `startDownload` installs:
the per-stream closures, `totalProgress`, `totalSize`, `done`, which temporary
files are on disk, the payloads passed to `update`, the encoder invocations,
whether an encoder promise is outstanding, and whether the download id is
present in `activeDownloads`. -/
structure SessionState where
  streams : List StreamState
  totalProgress : ℤ
  totalSize : ℤ
  done : ℕ
  tempPresent : List Bool
  updates : List Msg
  encoderCalls : List EncoderCall
  pendingConv : Bool
  inRegistry : Bool
deriving DecidableEq, Repr

/-- The `add-download` payload fields relevant here (lines 54-70). -/
structure InitPayload where
  destination : Option String
  size : ℤ
  speed : ℤ
  progress : ℤ
  status : Status
deriving DecidableEq, Repr

/-- `{destination: null, size: 1, speed: 0, progress: 0, status: 'progress'}`
(lines 56-61). -/
def initPayload : InitPayload :=
  { destination := none, size := 1, speed := 0, progress := 0,
    status := Status.progress }

/-- State right after the `startDownload` body ran: one stream per source,
`totalProgress = totalSize = 0`, `done = 0`, every temporary file created,
no updates sent yet, and the cancel action registered in `activeDownloads`
(line 172). -/
def initState (cfg : Config) : SessionState :=
  { streams := List.replicate cfg.tempPaths.length dfltStream,
    totalProgress := 0, totalSize := 0, done := 0,
    tempPresent := List.replicate cfg.tempPaths.length true,
    updates := [], encoderCalls := [],
    pendingConv := false, inRegistry := true }

/-- `startDownload` sends the `add-download` payload, sets up the session and
returns the string `'ok'` (line 179). -/
def startDownload (cfg : Config) : SessionState × InitPayload × String :=
  (initState cfg, initPayload, "ok")

/-- An asynchronous occurrence the installed handlers can react to:
a `progress` event of stream `i` with the stream's cumulative progress `p`,
its size estimate `s` and the current wall clock `now`; an `end` event of
stream `i`; an `error` event of stream `i` whose cause is or is not the
`'cancelled'` sentinel; resolution of the outstanding encoder promise; or the
registered cancel action being invoked. -/
inductive Event
  | progressEv (i : ℕ) (p s now : ℤ)
  | endEv (i : ℕ)
  | errorEv (i : ℕ) (causeCancelled : Bool)
  | convertDone (ok : Bool) (now : ℤ)
  | cancelEv
deriving DecidableEq, Repr

/-- The `progress` handler (lines 98-111):
`totalProgress += progress - lastProgress; totalSize -= lastSize;
update({progress: totalProgress,
        speed: ((lastProgress + progress) / 4)
                 * (Date.now() - lastProgressTimestamp).toFixed(1),
        size: totalSize += size});
lastSize = size; lastProgress = progress; lastProgressTimestamp = Date.now()`.
`.toFixed(1)` on the integer millisecond difference leaves its value unchanged
once the `*` coerces it back to a number, so the published speed is
`(lastProgress + progress) / 4 * elapsed`, stored here as its exact quadruple
`(lastProgress + progress) * elapsed`. -/
def applyProgress (st : SessionState) (i : ℕ) (p s now : ℤ) : SessionState :=
  if i < st.streams.length then
    let cur := st.streams.getD i dfltStream
    let tp := st.totalProgress + (p - cur.lastProgress)
    let ts := st.totalSize - cur.lastSize + s
    let spd4 := (cur.lastProgress + p) * (now - cur.lastTs)
    { st with
      totalProgress := tp,
      totalSize := ts,
      streams := st.streams.set i
        { cur with lastProgress := p, lastSize := s, lastTs := now },
      updates := st.updates ++ [Msg.sample tp spd4 ts] }
  else st

/-- The `end` handler of stream `i` (lines 113-156): `done++`; if
`done === sources.length`, publish `{progress: totalSize, size: totalSize,
status: 'convert'}` and call `encoder.convert` (single source) or
`encoder.merge` (several sources) on `destinationDirectory` — the temporary
path of the stream whose handler is running — and the destination file. -/
def applyEnd (cfg : Config) (st : SessionState) (i : ℕ) : SessionState :=
  if i < st.streams.length then
    if st.done + 1 = st.streams.length then
      { st with
        done := st.done + 1,
        updates := st.updates ++ [Msg.convertMsg st.totalSize st.totalSize],
        encoderCalls := st.encoderCalls ++
          [if st.streams.length = 1
            then EncoderCall.convertCall (cfg.tempPaths.getD i "") (destFile cfg)
            else EncoderCall.mergeCall (cfg.tempPaths.getD i "") (destFile cfg)],
        pendingConv := true }
    else { st with done := st.done + 1 }
  else st

/-- The `error` handler of stream `i` (lines 158-168): when the cause is not
the `'cancelled'` sentinel, destroy every source stream (no reason given),
unlink every temporary file and publish `{status: 'errored'}`; when the cause
is `'cancelled'`, do nothing. -/
def applyError (st : SessionState) (i : ℕ) (causeCancelled : Bool) :
    SessionState :=
  if i < st.streams.length then
    if causeCancelled then st
    else
      { st with
        streams := st.streams.map fun s =>
          { s with destroyed := true, destroyCancelled := false },
        tempPresent := st.tempPresent.map fun _ => false,
        updates := st.updates ++ [Msg.erroredMsg] }
  else st

/-- Resolution of the encoder promise (lines 139-154): `.then` publishes
`{status: 'finish', endTimestamp, destinationFile}`, `.catch` publishes
`{status: 'errored'}`, and `.finally` unlinks every temporary file. -/
def applyConvertDone (cfg : Config) (st : SessionState) (ok : Bool) (now : ℤ) :
    SessionState :=
  if st.pendingConv then
    { st with
      pendingConv := false,
      updates := st.updates ++
        [if ok then Msg.finishMsg now (destFile cfg) else Msg.erroredMsg],
      tempPresent := st.tempPresent.map fun _ => false }
  else st

/-- The registered cancel action (lines 172-177):
`sourceStreams.forEach(s => s.destroy('cancelled'));
update({status: 'cancelled'})`.  No temporary file is touched here. -/
def applyCancel (st : SessionState) : SessionState :=
  { st with
    streams := st.streams.map fun s =>
      { s with destroyed := true, destroyCancelled := true },
    updates := st.updates ++ [Msg.cancelledMsg] }

/-- One asynchronous step of the session. -/
def step (cfg : Config) (st : SessionState) : Event → SessionState
  | Event.progressEv i p s now => applyProgress st i p s now
  | Event.endEv i => applyEnd cfg st i
  | Event.errorEv i c => applyError st i c
  | Event.convertDone ok now => applyConvertDone cfg st ok now
  | Event.cancelEv => applyCancel st

/-- The session state after `startDownload cfg` followed by the events `evs`. -/
def run (cfg : Config) (evs : List Event) : SessionState :=
  evs.foldl (step cfg) (initState cfg)

/-- `cancelDownload` (lines 188-192): look the id up in `activeDownloads`;
`item && item.cancel(); return 'ok'`.  The argument is the registry entry for
the requested id (`none` when the id is absent). -/
def cancelDownload (s : Option SessionState) : Option SessionState × String :=
  match s with
  | none => (none, "ok")
  | some st => (some (applyCancel st), "ok")

/-- The `status` field a payload carries, if any. -/
def statusOf : Msg → Option Status
  | Msg.sample _ _ _ => none
  | Msg.convertMsg _ _ => some Status.convert
  | Msg.finishMsg _ _ => some Status.finish
  | Msg.erroredMsg => some Status.errored
  | Msg.cancelledMsg => some Status.cancelled

/-- The recorded status after a sequence of update payloads: the last
status-carrying payload. -/
def lastStatus (l : List Msg) : Option Status :=
  (l.filterMap statusOf).getLast?

/-- The `(progress, size)` pair of a payload carrying both fields, if any. -/
def progSize : Msg → Option (ℤ × ℤ)
  | Msg.sample p _ s => some (p, s)
  | Msg.convertMsg p s => some (p, s)
  | _ => none

/-- Concrete single-stream session used in witnesses. -/
def cfg1 : Config :=
  { title := "T", authorName := "A", format := "mp3", downloadDir := "dl",
    createChannelDirectory := false, playlistTitle := none,
    tempPaths := ["tmp/a.mp4"] }

/-- Concrete two-stream session used in witnesses. -/
def cfg2 : Config :=
  { title := "T", authorName := "A", format := "mp4", downloadDir := "dl",
    createChannelDirectory := false, playlistTitle := none,
    tempPaths := ["tmp/a.mp4", "tmp/b.webm"] }

/-- Concrete zero-stream session used for the empty start request. -/
def cfg0 : Config :=
  { title := "T", authorName := "A", format := "mp3", downloadDir := "dl",
    createChannelDirectory := false, playlistTitle := none,
    tempPaths := [] }

/-! ### General lemmas about the session machine -/

lemma collapseRuns_space (rest : List Char) :
    collapseRuns (' ' :: rest)
      = ' ' :: collapseRuns (rest.dropWhile fun d => d = ' ') := by
  induction rest with
  | nil => rfl
  | cons d r ih =>
    by_cases hd : d = ' '
    · subst hd
      have h2 : collapseRuns (' ' :: ' ' :: r) = collapseRuns (' ' :: r) := by
        simp [collapseRuns]
      rw [h2, ih]
      simp [List.dropWhile]
    · simp [collapseRuns, hd, List.dropWhile]

lemma collapseRuns_nonspace {c : Char} (hc : ¬ c = ' ') (rest : List Char) :
    collapseRuns (c :: rest) = c :: collapseRuns rest := by
  cases rest with
  | nil => rfl
  | cons d r => simp [collapseRuns, hc]

lemma collapseAux_eq (l : List Char) :
    collapseAux false l = collapseRuns l ∧
    collapseAux true l = collapseRuns (l.dropWhile fun d => d = ' ') := by
  induction l with
  | nil => exact ⟨rfl, rfl⟩
  | cons c rest ih =>
    by_cases hc : c = ' '
    · subst hc
      refine ⟨?_, ?_⟩
      · rw [collapseRuns_space]
        simp [collapseAux, ih.2]
      · simp [collapseAux, List.dropWhile, ih.2]
    · refine ⟨?_, ?_⟩
      · rw [collapseRuns_nonspace hc]
        simp [collapseAux, hc, ih.1]
      · simp [collapseAux, hc, ih.1, List.dropWhile, collapseRuns_nonspace hc]

lemma streams_length_step (cfg : Config) (st : SessionState) (ev : Event) :
    (step cfg st ev).streams.length = st.streams.length := by
  cases ev <;>
    simp only [step, applyProgress, applyEnd, applyError, applyConvertDone,
      applyCancel] <;>
    (repeat' split) <;> simp

lemma streams_length_run (cfg : Config) (evs : List Event) :
    (run cfg evs).streams.length = cfg.tempPaths.length := by
  suffices h : ∀ (evs : List Event) (st : SessionState),
      (evs.foldl (step cfg) st).streams.length = st.streams.length by
    simpa [run, initState] using h evs (initState cfg)
  intro evs
  induction evs with
  | nil => intro st; rfl
  | cons e es ih =>
    intro st
    rw [List.foldl_cons, ih, streams_length_step]

lemma inRegistry_step (cfg : Config) (st : SessionState) (ev : Event) :
    (step cfg st ev).inRegistry = st.inRegistry := by
  cases ev <;>
    simp only [step, applyProgress, applyEnd, applyError, applyConvertDone,
      applyCancel] <;>
    (repeat' split) <;> simp

lemma run_append (cfg : Config) (evs : List Event) (e : Event) :
    run cfg (evs ++ [e]) = step cfg (run cfg evs) e := by
  simp [run]

lemma applyProgress_pos (st : SessionState) (i : ℕ) (p s now : ℤ)
    (hi : i < st.streams.length) :
    applyProgress st i p s now =
      { st with
        totalProgress :=
          st.totalProgress + (p - (st.streams.getD i dfltStream).lastProgress),
        totalSize := st.totalSize - (st.streams.getD i dfltStream).lastSize + s,
        streams := st.streams.set i
          { st.streams.getD i dfltStream with
            lastProgress := p, lastSize := s, lastTs := now },
        updates := st.updates ++ [Msg.sample
          (st.totalProgress + (p - (st.streams.getD i dfltStream).lastProgress))
          (((st.streams.getD i dfltStream).lastProgress + p)
            * (now - (st.streams.getD i dfltStream).lastTs))
          (st.totalSize - (st.streams.getD i dfltStream).lastSize + s)] } := by
  simp [applyProgress, hi]

lemma applyProgress_out (st : SessionState) (i : ℕ) (p s now : ℤ)
    (hi : ¬ i < st.streams.length) :
    applyProgress st i p s now = st := by
  simp [applyProgress, hi]

lemma applyEnd_last (cfg : Config) (st : SessionState) (i : ℕ)
    (hi : i < st.streams.length) (hd : st.done + 1 = st.streams.length) :
    applyEnd cfg st i =
      { st with
        done := st.done + 1,
        updates := st.updates ++ [Msg.convertMsg st.totalSize st.totalSize],
        encoderCalls := st.encoderCalls ++
          [if st.streams.length = 1
            then EncoderCall.convertCall (cfg.tempPaths.getD i "") (destFile cfg)
            else EncoderCall.mergeCall (cfg.tempPaths.getD i "") (destFile cfg)],
        pendingConv := true } := by
  simp [applyEnd, hi, hd]

lemma applyEnd_notlast (cfg : Config) (st : SessionState) (i : ℕ)
    (hi : i < st.streams.length) (hd : ¬ st.done + 1 = st.streams.length) :
    applyEnd cfg st i = { st with done := st.done + 1 } := by
  simp [applyEnd, hi, hd]

lemma applyEnd_out (cfg : Config) (st : SessionState) (i : ℕ)
    (hi : ¬ i < st.streams.length) :
    applyEnd cfg st i = st := by
  simp [applyEnd, hi]

lemma applyError_real (st : SessionState) (i : ℕ)
    (hi : i < st.streams.length) :
    applyError st i false =
      { st with
        streams := st.streams.map fun s =>
          { s with destroyed := true, destroyCancelled := false },
        tempPresent := st.tempPresent.map fun _ => false,
        updates := st.updates ++ [Msg.erroredMsg] } := by
  simp [applyError, hi]

lemma applyError_cancelled (st : SessionState) (i : ℕ) :
    applyError st i true = st := by
  simp [applyError]

lemma applyError_out (st : SessionState) (i : ℕ) (c : Bool)
    (hi : ¬ i < st.streams.length) :
    applyError st i c = st := by
  simp [applyError, hi]

lemma applyConvertDone_pending (cfg : Config) (st : SessionState) (ok : Bool)
    (now : ℤ) (hp : st.pendingConv = true) :
    applyConvertDone cfg st ok now =
      { st with
        pendingConv := false,
        updates := st.updates ++
          [if ok then Msg.finishMsg now (destFile cfg) else Msg.erroredMsg],
        tempPresent := st.tempPresent.map fun _ => false } := by
  simp [applyConvertDone, hp]

lemma applyConvertDone_idle (cfg : Config) (st : SessionState) (ok : Bool)
    (now : ℤ) (hp : st.pendingConv = false) :
    applyConvertDone cfg st ok now = st := by
  simp [applyConvertDone, hp]

/-! ### Aggregation invariant (running totals are sums of the per-stream
latest samples) -/

/-- Sum of a per-stream quantity over the session's streams. -/
def sumBy (l : List StreamState) (f : StreamState → ℤ) : ℤ := (l.map f).sum

lemma sumBy_set (f : StreamState → ℤ) (a : StreamState) :
    ∀ (l : List StreamState) (i : ℕ), i < l.length →
      sumBy (l.set i a) f = sumBy l f - f (l.getD i dfltStream) + f a := by
  intro l
  induction l with
  | nil => intro i hi; simp at hi
  | cons hd tl ih =>
    intro i hi
    cases i with
    | zero =>
      simp [sumBy]
      ring
    | succ j =>
      have hj : j < tl.length := by simpa using hi
      have h2 := ih j hj
      simp only [sumBy, List.set_cons_succ, List.map_cons, List.sum_cons,
        List.getD_cons_succ] at h2 ⊢
      rw [h2]
      ring

lemma sumBy_map (l : List StreamState) (g : StreamState → StreamState)
    (f : StreamState → ℤ) (h : ∀ s, f (g s) = f s) :
    sumBy (l.map g) f = sumBy l f := by
  simp only [sumBy, List.map_map]
  congr 1
  exact List.map_congr_left fun a _ => h a

lemma sumBy_le_sumBy (l : List StreamState) (f g : StreamState → ℤ)
    (h : ∀ s ∈ l, f s ≤ g s) : sumBy l f ≤ sumBy l g :=
  List.sum_le_sum h

lemma sumBy_replicate_dflt (n : ℕ) (f : StreamState → ℤ)
    (h : f dfltStream = 0) : sumBy (List.replicate n dfltStream) f = 0 := by
  simp [sumBy, List.map_replicate, h]

/-- `true` iff a progress event reports cumulative progress not exceeding the
reported size estimate (trivially `true` for the other events). -/
def sampleLE : Event → Bool
  | Event.progressEv _ p s _ => p ≤ s
  | _ => true

/-- `true` iff a payload carrying both a progress and a size field has
progress ≤ size. -/
def progLeSize (m : Msg) : Bool :=
  match progSize m with
  | some (pr, sz) => pr ≤ sz
  | none => true

/-- The aggregation invariant: the running totals are the sums of the latest
per-stream samples, the latest sample of every stream has progress ≤ size,
and every payload published so far carrying both fields has progress ≤ size. -/
def AggInv (st : SessionState) : Prop :=
  st.totalProgress = sumBy st.streams StreamState.lastProgress ∧
  st.totalSize = sumBy st.streams StreamState.lastSize ∧
  (∀ s ∈ st.streams, s.lastProgress ≤ s.lastSize) ∧
  st.updates.all progLeSize = true

lemma aggInv_init (cfg : Config) : AggInv (initState cfg) := by
  refine ⟨?_, ?_, ?_, rfl⟩
  · simp only [initState]
    rw [sumBy_replicate_dflt _ _ rfl]
  · simp only [initState]
    rw [sumBy_replicate_dflt _ _ rfl]
  · intro s hs
    rw [List.eq_of_mem_replicate hs]
    decide

lemma aggInv_step (cfg : Config) (st : SessionState) (ev : Event)
    (hinv : AggInv st) (hev : sampleLE ev = true) : AggInv (step cfg st ev) := by
  obtain ⟨hp, hs, hps, hupd⟩ := hinv
  cases ev with
  | progressEv i p s now =>
    by_cases hi : i < st.streams.length
    · have hple : p ≤ s := by simpa [sampleLE] using hev
      rw [step, applyProgress_pos st i p s now hi]
      have hsumP := sumBy_set StreamState.lastProgress
        { st.streams.getD i dfltStream with
          lastProgress := p, lastSize := s, lastTs := now } st.streams i hi
      have hsumS := sumBy_set StreamState.lastSize
        { st.streams.getD i dfltStream with
          lastProgress := p, lastSize := s, lastTs := now } st.streams i hi
      have hmem : ∀ x ∈ st.streams.set i
          { st.streams.getD i dfltStream with
            lastProgress := p, lastSize := s, lastTs := now },
          x.lastProgress ≤ x.lastSize := by
        intro x hx
        rcases List.mem_or_eq_of_mem_set hx with hx' | hx'
        · exact hps x hx'
        · rw [hx']; exact hple
      have hle : st.totalProgress +
            (p - (st.streams.getD i dfltStream).lastProgress)
          ≤ st.totalSize - (st.streams.getD i dfltStream).lastSize + s := by
        have h1 : st.totalProgress +
              (p - (st.streams.getD i dfltStream).lastProgress)
            = sumBy (st.streams.set i
                { st.streams.getD i dfltStream with
                  lastProgress := p, lastSize := s, lastTs := now })
              StreamState.lastProgress := by
          rw [hsumP, hp]; try ring
        have h2 : st.totalSize - (st.streams.getD i dfltStream).lastSize + s
            = sumBy (st.streams.set i
                { st.streams.getD i dfltStream with
                  lastProgress := p, lastSize := s, lastTs := now })
              StreamState.lastSize := by
          rw [hsumS, hs]; try ring
        rw [h1, h2]
        exact sumBy_le_sumBy _ _ _ hmem
      refine ⟨?_, ?_, hmem, ?_⟩
      · rw [hsumP, hp]; try ring
      · rw [hsumS, hs]; try ring
      · simp only [List.all_append, hupd, Bool.true_and, List.all_cons,
          List.all_nil, Bool.and_true]
        simpa [progLeSize, progSize] using hle
    · rw [step, applyProgress_out st i p s now hi]
      exact ⟨hp, hs, hps, hupd⟩
  | endEv i =>
    by_cases hi : i < st.streams.length
    · by_cases hd : st.done + 1 = st.streams.length
      · rw [step, applyEnd_last cfg st i hi hd]
        refine ⟨hp, hs, hps, ?_⟩
        simp only [List.all_append, hupd, Bool.true_and, List.all_cons,
          List.all_nil, Bool.and_true]
        simp [progLeSize, progSize]
      · rw [step, applyEnd_notlast cfg st i hi hd]
        exact ⟨hp, hs, hps, hupd⟩
    · rw [step, applyEnd_out cfg st i hi]
      exact ⟨hp, hs, hps, hupd⟩
  | errorEv i c =>
    by_cases hi : i < st.streams.length
    · cases c with
      | true =>
        rw [step, applyError_cancelled]
        exact ⟨hp, hs, hps, hupd⟩
      | false =>
        rw [step, applyError_real st i hi]
        refine ⟨?_, ?_, ?_, ?_⟩
        · exact hp.trans
            (sumBy_map st.streams
              (fun s => { s with destroyed := true, destroyCancelled := false })
              StreamState.lastProgress fun s => rfl).symm
        · exact hs.trans
            (sumBy_map st.streams
              (fun s => { s with destroyed := true, destroyCancelled := false })
              StreamState.lastSize fun s => rfl).symm
        · intro x hx
          rcases List.mem_map.mp hx with ⟨y, hy, rfl⟩
          exact hps y hy
        · simp only [List.all_append, hupd, Bool.true_and, List.all_cons,
            List.all_nil, Bool.and_true]
          simp [progLeSize, progSize]
    · rw [step, applyError_out st i c hi]
      exact ⟨hp, hs, hps, hupd⟩
  | convertDone ok now =>
    cases hpend : st.pendingConv with
    | true =>
      rw [step, applyConvertDone_pending cfg st ok now hpend]
      refine ⟨hp, hs, hps, ?_⟩
      simp only [List.all_append, hupd, Bool.true_and, List.all_cons,
        List.all_nil, Bool.and_true]
      cases ok <;> simp [progLeSize, progSize]
    | false =>
      rw [step, applyConvertDone_idle cfg st ok now hpend]
      exact ⟨hp, hs, hps, hupd⟩
  | cancelEv =>
    rw [step, applyCancel]
    refine ⟨?_, ?_, ?_, ?_⟩
    · exact hp.trans
        (sumBy_map st.streams
          (fun s => { s with destroyed := true, destroyCancelled := true })
          StreamState.lastProgress fun s => rfl).symm
    · exact hs.trans
        (sumBy_map st.streams
          (fun s => { s with destroyed := true, destroyCancelled := true })
          StreamState.lastSize fun s => rfl).symm
    · intro x hx
      rcases List.mem_map.mp hx with ⟨y, hy, rfl⟩
      exact hps y hy
    · simp only [List.all_append, hupd, Bool.true_and, List.all_cons,
        List.all_nil, Bool.and_true]
      simp [progLeSize, progSize]

/-- Shape of every call the session hands to the encoder backend: its second
argument is the session's destination file, its first argument is the
temporary path of one of the session's streams, and it is `convert` exactly
when the session has a single stream (`merge` otherwise). -/
def EncCallOK (cfg : Config) (c : EncoderCall) : Prop :=
  encDst c = destFile cfg ∧
  (∃ i, i < cfg.tempPaths.length ∧ encSrc c = cfg.tempPaths.getD i "") ∧
  (isConvCall c = true ↔ cfg.tempPaths.length = 1)

lemma encInv_step (cfg : Config) (st : SessionState) (ev : Event)
    (hlen : st.streams.length = cfg.tempPaths.length)
    (h : ∀ c ∈ st.encoderCalls, EncCallOK cfg c) :
    ∀ c ∈ (step cfg st ev).encoderCalls, EncCallOK cfg c := by
  cases ev with
  | progressEv i p s now =>
    by_cases hi : i < st.streams.length
    · rw [step, applyProgress_pos st i p s now hi]; exact h
    · rw [step, applyProgress_out st i p s now hi]; exact h
  | endEv i =>
    by_cases hi : i < st.streams.length
    · by_cases hd : st.done + 1 = st.streams.length
      · rw [step, applyEnd_last cfg st i hi hd]
        intro c hc
        rcases List.mem_append.mp hc with hc' | hc'
        · exact h c hc'
        · rw [List.mem_singleton.mp hc']
          by_cases h1 : st.streams.length = 1
          · rw [if_pos h1]
            refine ⟨rfl, ⟨i, ?_, rfl⟩, ?_⟩
            · rw [← hlen]; exact hi
            · simp only [isConvCall]
              rw [← hlen]
              simp [h1]
          · rw [if_neg h1]
            refine ⟨rfl, ⟨i, ?_, rfl⟩, ?_⟩
            · rw [← hlen]; exact hi
            · simp only [isConvCall]
              rw [← hlen]
              simp [h1]
      · rw [step, applyEnd_notlast cfg st i hi hd]; exact h
    · rw [step, applyEnd_out cfg st i hi]; exact h
  | errorEv i c =>
    by_cases hi : i < st.streams.length
    · cases c with
      | true => rw [step, applyError_cancelled]; exact h
      | false => rw [step, applyError_real st i hi]; exact h
    · rw [step, applyError_out st i c hi]; exact h
  | convertDone ok now =>
    cases hpend : st.pendingConv with
    | true => rw [step, applyConvertDone_pending cfg st ok now hpend]; exact h
    | false => rw [step, applyConvertDone_idle cfg st ok now hpend]; exact h
  | cancelEv => rw [step, applyCancel]; exact h

lemma encInv_run (cfg : Config) (evs : List Event) :
    ∀ c ∈ (run cfg evs).encoderCalls, EncCallOK cfg c := by
  suffices hgen : ∀ (evs : List Event) (st : SessionState),
      st.streams.length = cfg.tempPaths.length →
      (∀ c ∈ st.encoderCalls, EncCallOK cfg c) →
      ∀ c ∈ (evs.foldl (step cfg) st).encoderCalls, EncCallOK cfg c by
    refine hgen evs (initState cfg) ?_ ?_
    · simp [initState]
    · intro c hc
      simp [initState] at hc
  intro evs
  induction evs with
  | nil => intro st _ h; exact h
  | cons e es ih =>
    intro st hlen h
    rw [List.foldl_cons]
    exact ih (step cfg st e) (by rw [streams_length_step]; exact hlen)
      (encInv_step cfg st e hlen h)

/-- `true` iff a payload does not carry one of the statuses `convert`,
`finish`, `errored`. -/
def notCFE (m : Msg) : Bool :=
  match statusOf m with
  | some Status.convert => false
  | some Status.finish => false
  | some Status.errored => false
  | _ => true

lemma c10_inv (cfg : Config) :
    ∀ (evs : List Event) (st : SessionState),
      st.streams.length = 0 → st.pendingConv = false →
      st.updates.all notCFE = true →
      (evs.foldl (step cfg) st).updates.all notCFE = true := by
  intro evs
  induction evs with
  | nil => intro st _ _ h3; exact h3
  | cons e es ih =>
    intro st h1 h2 h3
    rw [List.foldl_cons]
    cases e with
    | progressEv i p s now =>
      rw [step, applyProgress_out st i p s now (by simp [h1])]
      exact ih st h1 h2 h3
    | endEv i =>
      rw [step, applyEnd_out cfg st i (by simp [h1])]
      exact ih st h1 h2 h3
    | errorEv i c =>
      rw [step, applyError_out st i c (by simp [h1])]
      exact ih st h1 h2 h3
    | convertDone ok now =>
      rw [step, applyConvertDone_idle cfg st ok now h2]
      exact ih st h1 h2 h3
    | cancelEv =>
      rw [step, applyCancel]
      refine ih _ ?_ h2 ?_
      · simp [h1]
      · simp [List.all_append, h3, notCFE, statusOf]

lemma aggInv_run (cfg : Config) (evs : List Event)
    (h : evs.all sampleLE = true) : AggInv (run cfg evs) := by
  suffices hgen : ∀ (evs : List Event) (st : SessionState),
      evs.all sampleLE = true → AggInv st →
      AggInv (evs.foldl (step cfg) st) by
    exact hgen evs (initState cfg) h (aggInv_init cfg)
  intro evs
  induction evs with
  | nil => intro st _ hst; exact hst
  | cons e es ih =>
    intro st hall hst
    rw [List.all_cons, Bool.and_eq_true] at hall
    exact ih (step cfg st e) hall.2 (aggInv_step cfg st e hst hall.1)

/-! ### Claim theorems -/

/-- C9: for every title, the sanitized title used in the destination file
name is obtained by replacing each occurrence of `/ \\ ? % * : | " < >` by a
single space and then collapsing every run of consecutive spaces to one
space; in particular `"My//Video:  Part*1"` becomes `"My Video Part 1"`. -/
theorem c9_title_sanitization :
    (∀ t : String, filteredTitle t = sanitizeSpec t) ∧
    filteredTitle "My//Video:  Part*1" = "My Video Part 1" := by
  refine ⟨?_, by decide⟩
  intro t
  unfold filteredTitle sanitizeSpec
  rw [(collapseAux_eq (t.toList.map replaceForbidden)).1]

/-- C4: assuming every per-stream progress sample reports progress not
exceeding its reported size, every payload the session publishes that
carries both a progress and a size field satisfies progress ≤ size (and the
initial `add-download` payload does too), even though a stream's reported
size may decrease between samples. -/
theorem c4_progress_le_size (cfg : Config) (evs : List Event)
    (h : evs.all sampleLE = true) :
    (run cfg evs).updates.all progLeSize = true ∧
    initPayload.progress ≤ initPayload.size := by
  exact ⟨(aggInv_run cfg evs h).2.2.2, by decide⟩

/-- Witness for `c4_progress_le_size`: a concrete two-stream session whose
samples (including one where the reported size decreases from 100 to 60)
satisfy the hypothesis. -/
theorem c4_progress_le_size_witness :
    ([Event.progressEv 0 50 100 1, Event.progressEv 1 10 70 2,
      Event.progressEv 0 55 60 3].all sampleLE = true) ∧
    ((run cfg2 [Event.progressEv 0 50 100 1, Event.progressEv 1 10 70 2,
        Event.progressEv 0 55 60 3]).updates.all progLeSize = true ∧
     initPayload.progress ≤ initPayload.size) :=
  ⟨by decide, c4_progress_le_size cfg2
    [Event.progressEv 0 50 100 1, Event.progressEv 1 10 70 2,
     Event.progressEv 0 55 60 3] (by decide)⟩

/-- C7: in a session with more than one stream, after any prior history, an
`error` event of one stream whose cause is not the `cancelled` sentinel
destroys every stream fetcher, unlinks every temporary file (none remains)
and publishes exactly one `errored` update; an `error` event whose cause is
the `cancelled` sentinel changes nothing at all. -/
theorem c7_stream_error_aborts (cfg : Config) (evs : List Event) (i : ℕ)
    (hn : 1 < cfg.tempPaths.length) (hi : i < cfg.tempPaths.length) :
    (run cfg (evs ++ [Event.errorEv i false])).streams.all
        StreamState.destroyed = true ∧
    (run cfg (evs ++ [Event.errorEv i false])).tempPresent.any id = false ∧
    (run cfg (evs ++ [Event.errorEv i false])).updates
      = (run cfg evs).updates ++ [Msg.erroredMsg] ∧
    run cfg (evs ++ [Event.errorEv i true]) = run cfg evs := by
  have _hn := hn
  have hi2 : i < (run cfg evs).streams.length := by
    rw [streams_length_run]; exact hi
  rw [run_append, run_append]
  refine ⟨?_, ?_, ?_, ?_⟩
  · rw [step, applyError_real _ _ hi2]
    rw [List.all_eq_true]
    intro x hx
    rcases List.mem_map.mp hx with ⟨y, _, rfl⟩
    rfl
  · rw [step, applyError_real _ _ hi2]
    simp
  · rw [step, applyError_real _ _ hi2]
  · rw [step, applyError_cancelled]

/-- Witness for `c7_stream_error_aborts`: the two-stream session `cfg2`,
empty prior history, stream 0 failing. -/
theorem c7_stream_error_aborts_witness :
    (1 < cfg2.tempPaths.length ∧ 0 < cfg2.tempPaths.length) ∧
    ((run cfg2 ([] ++ [Event.errorEv 0 false])).streams.all
        StreamState.destroyed = true ∧
     (run cfg2 ([] ++ [Event.errorEv 0 false])).tempPresent.any id = false ∧
     (run cfg2 ([] ++ [Event.errorEv 0 false])).updates
       = (run cfg2 []).updates ++ [Msg.erroredMsg] ∧
     run cfg2 ([] ++ [Event.errorEv 0 true]) = run cfg2 []) :=
  ⟨⟨by decide, by decide⟩,
    c7_stream_error_aborts cfg2 [] 0 (by decide) (by decide)⟩

/-- Two streams of `cfg2` completing successfully, with final reported sizes
(and progress) 1000 and 2000 bytes. -/
def twoStreamRun : List Event :=
  [Event.progressEv 0 1000 1000 1, Event.progressEv 1 2000 2000 2,
   Event.endEv 0, Event.endEv 1]

/-- C8: each stream's `end` event increments the done counter, and exactly
when the incremented counter equals the stream count a `convert` update is
published whose progress and size fields are both `totalSize` (hence equal);
in the concrete two-stream scenario with final sizes 1000 and 2000 the
convert transition publishes progress = size = 3000 = 1000 + 2000. -/
theorem c8_convert_transition (cfg : Config) (st : SessionState) (i : ℕ)
    (hi : i < st.streams.length) :
    (applyEnd cfg st i).done = st.done + 1 ∧
    (applyEnd cfg st i).updates
      = (if st.done + 1 = st.streams.length
          then st.updates ++ [Msg.convertMsg st.totalSize st.totalSize]
          else st.updates) ∧
    (run cfg2 twoStreamRun).updates.getLast?
      = some (Msg.convertMsg 3000 3000) ∧
    (1000 + 2000 : ℤ) = 3000 := by
  refine ⟨?_, ?_, by decide, by decide⟩
  · by_cases hd : st.done + 1 = st.streams.length
    · rw [applyEnd_last cfg st i hi hd]
    · rw [applyEnd_notlast cfg st i hi hd]
  · by_cases hd : st.done + 1 = st.streams.length
    · rw [applyEnd_last cfg st i hi hd, if_pos hd]
    · rw [applyEnd_notlast cfg st i hi hd, if_neg hd]

/-- Witness for `c8_convert_transition`: the single stream of `cfg1` ending
right after start (done counter 0 + 1 = stream count 1). -/
theorem c8_convert_transition_witness :
    0 < (initState cfg1).streams.length ∧
    ((applyEnd cfg1 (initState cfg1) 0).done = (initState cfg1).done + 1 ∧
     (applyEnd cfg1 (initState cfg1) 0).updates
       = (if (initState cfg1).done + 1 = (initState cfg1).streams.length
           then (initState cfg1).updates ++
             [Msg.convertMsg (initState cfg1).totalSize
               (initState cfg1).totalSize]
           else (initState cfg1).updates) ∧
     (run cfg2 twoStreamRun).updates.getLast?
       = some (Msg.convertMsg 3000 3000) ∧
     (1000 + 2000 : ℤ) = 3000) :=
  ⟨by decide, c8_convert_transition cfg1 (initState cfg1) 0 (by decide)⟩

/-- C10: a start request with an empty stream-descriptor list still publishes
the initial `add-download` payload with status `progress` and returns `'ok'`,
creates no stream fetchers, and no later event can ever publish an update
carrying status `convert`, `finish` or `errored` (the completion check lives
only in per-stream `end` handlers, of which none exists). -/
theorem c10_empty_sources (cfg : Config) (hn : cfg.tempPaths = [])
    (evs : List Event) :
    (startDownload cfg).2.1.status = Status.progress ∧
    (startDownload cfg).2.2 = "ok" ∧
    (startDownload cfg).1.streams = [] ∧
    (run cfg evs).updates.all notCFE = true := by
  have hlen : cfg.tempPaths.length = 0 := by rw [hn]; rfl
  refine ⟨rfl, rfl, ?_, ?_⟩
  · simp [startDownload, initState, hlen]
  · exact c10_inv cfg evs (initState cfg) (by simp [initState, hlen]) rfl rfl

/-- Witness for `c10_empty_sources`: the zero-stream session `cfg0` with a
later cancel request (which publishes only `cancelled`). -/
theorem c10_empty_sources_witness :
    cfg0.tempPaths = [] ∧
    ((startDownload cfg0).2.1.status = Status.progress ∧
     (startDownload cfg0).2.2 = "ok" ∧
     (startDownload cfg0).1.streams = [] ∧
     (run cfg0 [Event.cancelEv]).updates.all notCFE = true) :=
  ⟨rfl, c10_empty_sources cfg0 rfl [Event.cancelEv]⟩

/-- C1 (the code, evaluated at the failing input): cancelling a single-stream
session in `progress` status destroys its stream fetcher with the
`cancelled` reason and publishes a `cancelled` update, but the temporary
file is NOT removed — `tempPresent` is still `[true]`, because the cancel
action never unlinks and the `error` handler ignores the `cancelled`
sentinel, contradicting the claimed (and documented) cleanup. -/
theorem c1_cancel_leaves_temp_file :
    (run cfg1 [Event.progressEv 0 10 100 5, Event.cancelEv]).streams
      = [{ lastProgress := 10, lastSize := 100, lastTs := 5,
           destroyed := true, destroyCancelled := true }] ∧
    (run cfg1 [Event.progressEv 0 10 100 5, Event.cancelEv]).updates
      = [Msg.sample 10 50 100, Msg.cancelledMsg] ∧
    lastStatus (run cfg1 [Event.progressEv 0 10 100 5, Event.cancelEv]).updates
      = some Status.cancelled ∧
    (run cfg1 [Event.progressEv 0 10 100 5, Event.cancelEv]).tempPresent
      = [true] := by
  decide

/-- C3 (the code, evaluated at the failing input): after a first sample with
progress 100 at time 10, a second sample of the same stream with progress
300 at time 12 publishes speed `(100 + 300) / 4 * (12 - 10) = 200` — the sum
of the two progress values divided by four and MULTIPLIED by the elapsed
time — which differs from the claimed `(300 - 100) / (12 - 10) = 100`. -/
theorem c3_speed_formula :
    (run cfg1 [Event.progressEv 0 100 1000 10,
        Event.progressEv 0 300 1000 12]).updates
      = [Msg.sample 100 1000 1000, Msg.sample 300 800 1000] ∧
    speedValue 800 = ((100 + 300 : ℚ) / 4) * (12 - 10) ∧
    speedValue 800 = 200 ∧
    (300 - 100 : ℚ) / (12 - 10) = 100 ∧
    (200 : ℚ) ≠ 100 := by
  refine ⟨by decide, ?_, ?_, ?_, ?_⟩ <;> norm_num [speedValue]

/-- C5 (the code, evaluated at the failing inputs): after a single-stream
session reaches the terminal status `finish`, a cancel request still
publishes a `cancelled` update (the recorded status changes from `finish` to
`cancelled`); and after the terminal status `cancelled`, a stream `end`
event is still processed and publishes a `convert` update.  Terminal states
are not idempotent and later events are not ignored. -/
theorem c5_terminal_not_guarded :
    lastStatus (run cfg1 [Event.endEv 0, Event.convertDone true 50]).updates
      = some Status.finish ∧
    (run cfg1 [Event.endEv 0, Event.convertDone true 50,
        Event.cancelEv]).updates
      = [Msg.convertMsg 0 0, Msg.finishMsg 50 (destFile cfg1),
         Msg.cancelledMsg] ∧
    lastStatus (run cfg1 [Event.endEv 0, Event.convertDone true 50,
        Event.cancelEv]).updates
      = some Status.cancelled ∧
    (run cfg1 [Event.cancelEv, Event.endEv 0]).updates
      = [Msg.cancelledMsg, Msg.convertMsg 0 0] := by
  decide

/-- C6 counterexample: a single-stream session that finished and whose
cleanup ran (temporary file unlinked) is still present in the registry —
`activeDownloads` entries are never erased, so a registered id does not
always refer to a session not yet cleaned up. -/
theorem c6_registry_not_erased :
    lastStatus (run cfg1 [Event.endEv 0, Event.convertDone true 50]).updates
      = some Status.finish ∧
    (run cfg1 [Event.endEv 0, Event.convertDone true 50]).tempPresent
      = [false] ∧
    (run cfg1 [Event.endEv 0, Event.convertDone true 50]).inRegistry
      = true := by
  decide

/-- C6 (amended): a session's registry entry is inserted at start and never
removed — after any event sequence whatsoever the session is still
registered — while a cancel request for an id absent from the registry is a
no-op that still answers `'ok'`. -/
theorem c6_registry_insert_only (cfg : Config) (evs : List Event) :
    (initState cfg).inRegistry = true ∧
    (run cfg evs).inRegistry = true ∧
    cancelDownload none = (none, "ok") := by
  refine ⟨rfl, ?_, rfl⟩
  suffices h : ∀ (evs : List Event) (st : SessionState),
      (evs.foldl (step cfg) st).inRegistry = st.inRegistry by
    exact (h evs (initState cfg)).trans rfl
  intro evs
  induction evs with
  | nil => intro st; rfl
  | cons e es ih =>
    intro st
    rw [List.foldl_cons, ih, inRegistry_step]

/-- C2 counterexample: in the two-stream session `cfg2` whose streams both
end successfully, the encoder is invoked as `merge` with a single source
argument — the temporary file of the stream whose `end` event arrived last
(`tmp/b.webm`) — and the temporary file of the other stream (`tmp/a.mp4`)
appears in no encoder invocation, contrary to the claim that merge receives
the temporary files of all of the session's streams. -/
theorem c2_merge_single_argument :
    (run cfg2 [Event.endEv 0, Event.endEv 1]).encoderCalls
      = [EncoderCall.mergeCall "tmp/b.webm" (destFile cfg2)] ∧
    "tmp/a.mp4" ∈ cfg2.tempPaths ∧
    ((run cfg2 [Event.endEv 0, Event.endEv 1]).encoderCalls.map encSrc)
      = ["tmp/b.webm"] ∧
    "tmp/a.mp4" ∉
      ((run cfg2 [Event.endEv 0, Event.endEv 1]).encoderCalls.map encSrc) ∧
    "tmp/a.mp4" ≠ "tmp/b.webm" ∧
    1 < cfg2.tempPaths.length := by
  decide

/-- C2 (amended): every call handed to the encoder carries the final
destination path as second argument and, as first argument, the temporary
file of ONE of the session's streams (the one whose `end` event completed
the count, as the two, order-swapped, two-stream scenarios show); the
operation is `convert` exactly when the stream count is 1 and `merge`
otherwise. -/
theorem c2_encoder_invocation (cfg : Config) (evs : List Event) :
    (∀ c ∈ (run cfg evs).encoderCalls, EncCallOK cfg c) ∧
    (run cfg2 [Event.endEv 0, Event.endEv 1]).encoderCalls
      = [EncoderCall.mergeCall "tmp/b.webm" (destFile cfg2)] ∧
    (run cfg2 [Event.endEv 1, Event.endEv 0]).encoderCalls
      = [EncoderCall.mergeCall "tmp/a.mp4" (destFile cfg2)] ∧
    (run cfg1 [Event.endEv 0]).encoderCalls
      = [EncoderCall.convertCall "tmp/a.mp4" (destFile cfg1)] :=
  ⟨encInv_run cfg evs, by decide, by decide, by decide⟩

end Downloads
